import Mathlib

/-!
Verification of the identity, authorization, token and social-graph core of
the Blogify application (a Flask blog). Every definition below is a shallow
embedding of a function of the source tree: `app/models.py`,
`app/api/authentication.py`, `app/auth/views.py` and `app/main/views.py`.
Database tables are embedded as Lean lists of records, SQLAlchemy queries as
list operations, and Python exceptions as `Except` results.
-/

namespace Blogify

/-- Python-level runtime errors that the embedded code can raise. -/
inductive PyErr where
  | attributeError (name : String)
  | keyError (key : String)
deriving DecidableEq, Repr

/-- Replace the first element satisfying `p` by its image under `g`
(the effect of mutating the single row returned by `query.first()` /
`query.get`). -/
def updateFirst (p : α → Bool) (g : α → α) : List α → List α
  | [] => []
  | x :: xs => if p x then g x :: xs else x :: updateFirst p g xs

/-! ### Permission bits (app/models.py, class Permission) -/

def Permission.FOLLOW : Nat := 0x01
def Permission.COMMENT : Nat := 0x02
def Permission.WRITE : Nat := 0x04
def Permission.MODERATE_COMMENTS : Nat := 0x08
def Permission.ADMINISTER : Nat := 0x80

/-- The attribute table of `class Permission`: exactly the five class
attributes defined in app/models.py lines 19-24. -/
def Permission.attrs : List (String × Nat) :=
  [("FOLLOW", Permission.FOLLOW),
   ("COMMENT", Permission.COMMENT),
   ("WRITE", Permission.WRITE),
   ("MODERATE_COMMENTS", Permission.MODERATE_COMMENTS),
   ("ADMINISTER", Permission.ADMINISTER)]

/-- Python attribute access `Permission.<name>`: raises AttributeError when
the class does not define the attribute. -/
def pyGetattr (name : String) : Except PyErr Nat :=
  match Permission.attrs.lookup name with
  | some v => .ok v
  | none => .error (.attributeError name)

/-- One row of the `roles` table. -/
structure RoleRec where
  name : String
  permissions : Nat
  default : Bool
deriving DecidableEq, Repr

/-- The loop body of `Role.insert_roles`: fetch the role by name
(`Role.query.filter_by(name=r).first()`), create it when missing, and
overwrite its permissions and default flag. -/
def upsertRole (table : List RoleRec) (name : String) (perms : Nat)
    (dflt : Bool) : List RoleRec :=
  if (table.find? (fun r => r.name == name)).isSome then
    updateFirst (fun r => r.name == name)
      (fun r => { r with permissions := perms, default := dflt }) table
  else
    table ++ [⟨name, perms, dflt⟩]

/-- `Role.insert_roles` (app/models.py lines 151-170). The `roles` dict
literal is evaluated first, reading the `Permission` attributes in source
order; only then is each of the three roles upserted by name. The source
reads `Permission.WRITE_ARTICLES`, an attribute that `class Permission`
does not define. -/
def Role.insert_roles (table : List RoleRec) : Except PyErr (List RoleRec) := do
  let uf ← pyGetattr "FOLLOW"
  let uc ← pyGetattr "COMMENT"
  let uw ← pyGetattr "WRITE_ARTICLES"
  let mf ← pyGetattr "FOLLOW"
  let mc ← pyGetattr "COMMENT"
  let mw ← pyGetattr "WRITE_ARTICLES"
  let mm ← pyGetattr "MODERATE_COMMENTS"
  let userPerms := uf ||| uc ||| uw
  let moderatorPerms := mf ||| mc ||| mw ||| mm
  let t1 := upsertRole table "User" userPerms true
  let t2 := upsertRole t1 "Moderator" moderatorPerms false
  let t3 := upsertRole t2 "Administrator" 0xff false
  return t3

/-! ### Users and the permission check (app/models.py, class User) -/

/-- One row of the `users` table, together with its loaded `role`
relationship. `id` is `none` for an object not yet committed. -/
structure User where
  id : Option Nat
  email : String
  username : String
  passwdHash : String
  confirmed : Bool
  role : Option RoleRec
deriving DecidableEq, Repr

/-- `User.can` (app/models.py lines 262-264):
`self.role is not None and (self.role.permissions & permissions) == permissions`. -/
def User.can (u : User) (permissions : Nat) : Bool :=
  match u.role with
  | none => false
  | some r => r.permissions &&& permissions == permissions

/-- `AnonymousUser.can` (app/models.py lines 339-341): always False. -/
def AnonymousUser.can (_permissions : Nat) : Bool := false

/-! ### The API authentication callback (app/api/authentication.py) -/

/-- The outcome of the `verify_password` callback: the returned boolean and
the `g.current_user` / `g.token_used` request globals it sets (`none` when
the callback returns without setting them). -/
structure AuthOutcome where
  ok : Bool
  currentUser : Option User
  tokenUsed : Option Bool
deriving DecidableEq, Repr

/-- `verify_passwd` (app/api/authentication.py lines 16-29). `checkHash`
embeds werkzeug's `check_password_hash`; the callback decides the
empty-password branch before ever touching it. -/
def verify_passwd (checkHash : String → String → Bool) (users : List User)
    (emailOrToken password : String) : AuthOutcome :=
  if emailOrToken = "" then ⟨false, none, none⟩
  else if password = "" then
    let cu := users.find? (fun u => u.email == emailOrToken)
    ⟨cu.isSome, cu, some true⟩
  else
    match users.find? (fun u => u.email == emailOrToken) with
    | none => ⟨false, none, none⟩
    | some u => ⟨checkHash u.passwdHash password, some u, some false⟩

/-! ### Signed timed tokens (itsdangerous TimedSerializer, as used in
app/models.py)

A token is the signed serialization of a Python dict together with the
signing timestamp. The application only ever signs one-key dicts whose
value is a user id, so payloads are embedded as string-keyed association
lists over `Option Nat` (a Python value that may be `None`). Signature
validity is abstracted into the boolean `validSig`: the serializer marks
everything it signs valid, and forging a valid signature without the
secret is assumed impossible, so every attacker-made or tampered token has
`validSig = false`. -/

structure Token where
  validSig : Bool
  payload : List (String × Option Nat)
  issuedAt : Nat
deriving DecidableEq, Repr

/-- Failures of `TimedSerializer.loads`, all caught by the bare `except`
clauses in app/models.py. -/
inductive SigErr where
  | badSignature
  | signatureExpired
deriving DecidableEq, Repr

/-- `Serializer(...).dumps(payload)` at time `t`. -/
def Serializer.dumps (payload : List (String × Option Nat)) (t : Nat) : Token :=
  ⟨true, payload, t⟩

/-- `Serializer(...).loads(token, max_age=maxAge)` evaluated at time `now`:
checks the signature, then (only when a `max_age` is supplied) rejects the
token once its age exceeds `maxAge` seconds. -/
def Serializer.loads (tok : Token) (maxAge : Option Nat) (now : Nat) :
    Except SigErr (List (String × Option Nat)) :=
  if tok.validSig = false then .error .badSignature
  else
    match maxAge with
    | none => .ok tok.payload
    | some m => if m < now - tok.issuedAt then .error .signatureExpired
                else .ok tok.payload

/-- Python `data.get(k)`: `None` both when the key is absent and when the
stored value is `None`. -/
def pyGet (d : List (String × Option Nat)) (k : String) : Option Nat :=
  match d.lookup k with
  | some v => v
  | none => none

/-- Python `data[k]`: raises KeyError when the key is absent. -/
def pyIndex (d : List (String × Option Nat)) (k : String) :
    Except PyErr (Option Nat) :=
  match d.lookup k with
  | some v => .ok v
  | none => .error (.keyError k)

/-- `User.generate_confirmation_token` (app/models.py lines 298-300):
signs the dict with single key `confirm` holding the user id. -/
def User.generate_confirmation_token (u : User) (t : Nat) : Token :=
  Serializer.dumps [("confirm", u.id)] t

/-- `User.verify_auth_token` (app/models.py lines 233-240). The
`try/except` covers only `s.loads`; the subsequent subscript `data['id']`
and the primary-key lookup run outside it, so a KeyError there propagates
to the caller. -/
def User.verify_auth_token (users : List User) (tok : Token) (now : Nat) :
    Except PyErr (Option User) :=
  match Serializer.loads tok none now with
  | .error _ => .ok none
  | .ok data =>
    match pyIndex data "id" with
    | .error e => .error e
    | .ok v => .ok (users.find? (fun u => u.id == v))

/-- `User.confirm` (app/models.py lines 302-314): load with the given
`max_age`, return False on any serializer failure or when the `confirm`
entry of the payload differs from the user id; otherwise set `confirmed`.
Returns the reported boolean and the (possibly updated) user row. -/
def User.confirm (u : User) (tok : Token) (maxAge : Nat) (now : Nat) :
    Bool × User :=
  match Serializer.loads tok (some maxAge) now with
  | .error _ => (false, u)
  | .ok data =>
    if pyGet data "confirm" = u.id then (true, { u with confirmed := true })
    else (false, u)

/-- The `/auth/confirm/<token>` endpoint (app/auth/views.py lines 78-87):
an already confirmed user is redirected untouched, otherwise
`current_user.confirm(token)` runs with its default `max_age` of 3600. -/
def confirmView (u : User) (tok : Token) (now : Nat) : User :=
  if u.confirmed then u else (User.confirm u tok 3600 now).2

/-! ### The follow graph (app/models.py, class Follow and User methods) -/

/-- One row of the `follows` table. Rows copied from not-yet-committed
users can carry `none` ids, mirroring nullable columns before flush. -/
structure Follow where
  follower_id : Option Nat
  followed_id : Option Nat
  timestamp : Nat
deriving DecidableEq, Repr

/-- The users and follows tables together. -/
structure SocialDB where
  users : List User
  follows : List Follow
deriving DecidableEq, Repr

/-- `User.is_following` (app/models.py lines 326-330): False outright when
the target has no id, otherwise an existence test on
`self.followed.filter_by(followed_id=user.id)`. -/
def User.is_following (a b : User) (follows : List Follow) : Bool :=
  match b.id with
  | none => false
  | some _ =>
    (follows.find? (fun f => f.follower_id == a.id && f.followed_id == b.id)).isSome

/-- `User.follow` (app/models.py lines 316-319): insert a new edge, stamped
with the current time, unless `is_following` already holds. -/
def User.follow (a b : User) (follows : List Follow) (now : Nat) : List Follow :=
  if User.is_following a b follows then follows
  else follows ++ [⟨a.id, b.id, now⟩]

/-- `User.unfollow` (app/models.py lines 321-324): delete the first row of
`self.followed.filter_by(followed_id=user.id)` when one exists. -/
def User.unfollow (a b : User) (follows : List Follow) : List Follow :=
  follows.eraseP (fun f => f.follower_id == a.id && f.followed_id == b.id)

/-- The `/unfollow/<username>` endpoint (app/main/views.py lines 192-204):
look the target up by username; when found, let the current user unfollow
it — with no special case for the current user naming themselves. -/
def unfollowView (cu : User) (username : String) (db : SocialDB) : SocialDB :=
  match db.users.find? (fun u => u.username == username) with
  | none => db
  | some target => { db with follows := User.unfollow cu target db.follows }

/-- `User.add_self_follows` (app/models.py lines 248-254): walk every user
row and self-follow the ones that do not yet follow themselves
(`User.follow` re-checks `is_following`, so the composition is exactly
`User.follow u u`). -/
def User.add_self_follows (db : SocialDB) (now : Nat) : SocialDB :=
  { db with follows := db.users.foldl (fun fs u => User.follow u u fs now) db.follows }

/-- Autoincrement primary key assigned at commit: one more than the largest
id in the table. -/
def nextId (users : List User) : Nat :=
  (users.filterMap (fun u => u.id)).foldr max 0 + 1

/-- The `/auth/register` endpoint (app/auth/views.py lines 59-75): create
the user row (unconfirmed, password hashed by the `hashFn` collaborator,
role resolved by `User.__init__` from the roles table) and commit it. No
follow edge is written. The confirmation token is then mailed out of
band. -/
def register (hashFn : String → String) (defaultRole : Option RoleRec)
    (db : SocialDB) (email username password : String) : SocialDB × User :=
  let u : User :=
    { id := some (nextId db.users), email := email, username := username,
      passwdHash := hashFn password, confirmed := false, role := defaultRole }
  ({ db with users := db.users ++ [u] }, u)

/-! ### Posts and the feed query (app/models.py, app/main/views.py) -/

/-- One row of the `posts` table (the fields the feed query touches). -/
structure Post where
  id : Nat
  author_id : Nat
  timestamp : Nat
deriving DecidableEq, Repr

/-- `User.followed_posts` (app/models.py lines 243-246): the join
`Post.query.join(Follow, Follow.followed_id == Post.author_id)` filtered by
`Follow.follower_id == self.id`, one result row per matching
(post, edge) pair. -/
def User.followed_posts (u : User) (posts : List Post)
    (follows : List Follow) : List Post :=
  posts.flatMap (fun p =>
    (follows.filter (fun f =>
      f.followed_id == some p.author_id && f.follower_id == u.id)).map
      (fun _ => p))

/-- Descending timestamp order used by `order_by(Post.timestamp.desc())`. -/
def postDesc (p q : Post) : Prop := q.timestamp ≤ p.timestamp

instance : DecidableRel postDesc := fun p q => Nat.decLe q.timestamp p.timestamp

instance : IsTotal Post postDesc := ⟨fun a b => Nat.le_total b.timestamp a.timestamp⟩

instance : IsTrans Post postDesc := ⟨fun _ _ _ h1 h2 => Nat.le_trans h2 h1⟩

/-- The followed-posts feed as produced by the index view
(app/main/views.py lines 49-62) with the `show_followed` cookie set:
`current_user.followed_posts` ordered by post timestamp descending.
Pagination then serves contiguous five-element slices of this list. -/
def indexFeed (u : User) (posts : List Post) (follows : List Follow) : List Post :=
  List.insertionSort postDesc (User.followed_posts u posts follows)

/-! ### Comments and moderation (app/main/views.py) -/

/-- One row of the `comments` table (the fields moderation touches);
`disabled` is a nullable boolean column, `none` until first set. -/
structure Comment where
  id : Nat
  post_id : Nat
  disabled : Option Bool
deriving DecidableEq, Repr

/-- `/moderate/enable/<id>` (app/main/views.py lines 237-247):
`Comment.query.get_or_404(id)` — a missing id aborts with 404 leaving the
table unchanged — then `disabled = False` is committed on the fetched
row. -/
def moderate_enable (i : Nat) (cs : List Comment) : List Comment :=
  if (cs.find? (fun c => c.id == i)).isSome then
    updateFirst (fun c => c.id == i) (fun c => { c with disabled := some false }) cs
  else cs

/-- `/moderate/disable/<id>` (app/main/views.py lines 250-260): same shape,
committing `disabled = True`. -/
def moderate_disable (i : Nat) (cs : List Comment) : List Comment :=
  if (cs.find? (fun c => c.id == i)).isSome then
    updateFirst (fun c => c.id == i) (fun c => { c with disabled := some true }) cs
  else cs

/-- `/moderate/delete/<id>` (app/main/views.py lines 263-273): fetch or
404, set `disabled = True`, then `db.session.delete(comment)` — the row is
removed from the table for good. -/
def delete_comment (i : Nat) (cs : List Comment) : List Comment :=
  if (cs.find? (fun c => c.id == i)).isSome then
    (updateFirst (fun c => c.id == i) (fun c => { c with disabled := some true }) cs).eraseP
      (fun c => c.id == i)
  else cs

/-- Modelled from the spec: the public comment listing of a post. The
`post` view (app/main/views.py lines 123-150) hands every comment of the
post to the template, and the rendering of disabled comments is decided in
`templates/post.html`, which is not under src/; the spec states that
public comment listings exclude Disabled and Deleted comments. -/
def publicComments (pid : Nat) (cs : List Comment) : List Comment :=
  cs.filter (fun c => c.post_id == pid && !(c.disabled == some true))

/-- The moderation listing (`/moderate`, app/main/views.py lines 224-234):
`Comment.query` — every stored comment, whether disabled or not. -/
def moderationComments (cs : List Comment) : List Comment := cs

/-- The three comment moderation endpoints, as a step alphabet for
reasoning about what later moderation activity can do. -/
inductive ModAction where
  | enable (i : Nat)
  | disable (i : Nat)
  | delete (i : Nat)
deriving DecidableEq, Repr

def applyAction (cs : List Comment) : ModAction → List Comment
  | .enable i => moderate_enable i cs
  | .disable i => moderate_disable i cs
  | .delete i => delete_comment i cs

def applyActions (cs : List Comment) (acts : List ModAction) : List Comment :=
  acts.foldl applyAction cs

/-! ## Theorems -/

/-- C1: the claim states that `Role.insert_roles` seeds the role table
with the spec bitmasks (User = 0x07, Moderator = 0x0f, Administrator with
every bit) and upserts idempotently. The code cannot seed anything: the
roles dict literal reads `Permission.WRITE_ARTICLES`, an attribute that
`class Permission` does not define (the write bit is named `WRITE`), so
every call raises AttributeError before touching the table. -/
theorem insert_roles_raises_attribute_error (table : List RoleRec) :
    Role.insert_roles table = .error (.attributeError "WRITE_ARTICLES") := rfl

/-- C7: for a user holding a role, `User.can` grants a capability bitmask
exactly when the role permissions include every requested bit (bitwise AND
equality), and the anonymous identity is granted nothing. -/
theorem can_checks_full_bitmask (u : User) (r : RoleRec) (c : Nat)
    (h : u.role = some r) :
    (User.can u c = true ↔ r.permissions &&& c = c) ∧
    (∀ c2 : Nat, AnonymousUser.can c2 = false) := by
  refine ⟨?_, fun c2 => rfl⟩
  simp [User.can, h]

def roleUserW : RoleRec := ⟨"User", 0x07, true⟩

def userW : User := ⟨some 1, "w@x", "wit", "H", true, some roleUserW⟩

theorem can_checks_full_bitmask_witness :
    userW.role = some roleUserW ∧
    ((User.can userW 5 = true ↔ roleUserW.permissions &&& 5 = 5) ∧
      (∀ c2 : Nat, AnonymousUser.can c2 = false)) :=
  ⟨rfl, can_checks_full_bitmask userW roleUserW 5 rfl⟩

/-- C2: in the API authentication callback, with a non-empty identifier and
an empty password, access is granted exactly when some user row has the
identifier in its email column, the request identity becomes the first
such row, and the outcome is the same for every password-hash checker —
neither the password hash nor any token signature is consulted on this
path (`User.verify_auth_token` does not occur in the callback). -/
theorem token_path_trusts_email (checkHash : String → String → Bool)
    (users : List User) (ident : String) (h : ident ≠ "") :
    ((verify_passwd checkHash users ident "").ok = true
        ↔ ∃ u ∈ users, u.email = ident) ∧
    (verify_passwd checkHash users ident "").currentUser
        = users.find? (fun u => u.email == ident) ∧
    (∀ g : String → String → Bool,
      verify_passwd g users ident "" = verify_passwd checkHash users ident "") := by
  refine ⟨?_, ?_, ?_⟩
  · simp [verify_passwd, h, List.find?_isSome]
  · simp [verify_passwd, h]
  · intro g
    simp [verify_passwd, h]

def hashW : String → String → Bool := fun _ _ => false

theorem token_path_trusts_email_witness :
    ("w@x" : String) ≠ "" ∧
    (((verify_passwd hashW [userW] "w@x" "").ok = true
        ↔ ∃ u ∈ [userW], u.email = "w@x") ∧
      (verify_passwd hashW [userW] "w@x" "").currentUser
        = [userW].find? (fun u => u.email == "w@x") ∧
      (∀ g : String → String → Bool,
        verify_passwd g [userW] "w@x" "" = verify_passwd hashW [userW] "w@x" "")) :=
  ⟨by decide, token_path_trusts_email hashW [userW] "w@x" (by decide)⟩

/-- C3: the claim states that token verification never raises, and that in
particular a confirmation token (payload a dict with single key `confirm`)
fed to `User.verify_auth_token` yields the Invalid result. The code
contradicts it: the `try` block of `verify_auth_token` covers only
`s.loads`, and the subscript `data['id']` that follows raises KeyError to
the caller for every well-signed token lacking an `id` key — which is
every confirmation token. (`User.confirm` itself does return a plain
boolean on such inputs, via `data.get`.) -/
theorem verify_auth_token_keyerror_on_confirm_token
    (users : List User) (u : User) (t now : Nat) :
    User.verify_auth_token users (User.generate_confirmation_token u t) now
      = .error (.keyError "id") := rfl

/-- C5: for an unconfirmed account, visiting the confirmation endpoint
flips `confirmed` to true exactly when the token carries a valid signature
whose payload binds `confirm` to the account id and is at most 3600
seconds old at verification time; on every failing token the row is left
unchanged and `User.confirm` reports False, and on every passing token it
reports True. -/
theorem confirm_endpoint_transitions_iff (u : User) (uid : Nat) (tok : Token)
    (now : Nat) (hid : u.id = some uid) (hc : u.confirmed = false) :
    ((confirmView u tok now).confirmed = true ↔
      (tok.validSig = true ∧ pyGet tok.payload "confirm" = some uid
        ∧ now - tok.issuedAt ≤ 3600)) ∧
    (¬ (tok.validSig = true ∧ pyGet tok.payload "confirm" = some uid
        ∧ now - tok.issuedAt ≤ 3600) →
      confirmView u tok now = u ∧ (User.confirm u tok 3600 now).1 = false) ∧
    ((tok.validSig = true ∧ pyGet tok.payload "confirm" = some uid
        ∧ now - tok.issuedAt ≤ 3600) →
      (User.confirm u tok 3600 now).1 = true) := by
  have hv : confirmView u tok now = (User.confirm u tok 3600 now).2 := by
    simp [confirmView, hc]
  by_cases hsig : tok.validSig = true
  · by_cases hexp : 3600 < now - tok.issuedAt
    · have hcf : User.confirm u tok 3600 now = (false, u) := by
        simp [User.confirm, Serializer.loads, hsig, hexp]
      refine ⟨?_, fun _ => ⟨by rw [hv, hcf], by rw [hcf]⟩, fun hcond => ?_⟩
      · rw [hv, hcf]
        simp only [hc]
        constructor
        · intro hfalse
          exact absurd hfalse (by simp)
        · intro hcond
          omega
      · omega
    · by_cases hpg : pyGet tok.payload "confirm" = some uid
      · have hcf : User.confirm u tok 3600 now
            = (true, { u with confirmed := true }) := by
          simp [User.confirm, Serializer.loads, hsig, hexp, hid, hpg]
        refine ⟨?_, fun hn => absurd ⟨hsig, hpg, by omega⟩ hn, fun _ => by rw [hcf]⟩
        rw [hv, hcf]
        simp only [true_iff]
        exact ⟨hsig, hpg, by omega⟩
      · have hcf : User.confirm u tok 3600 now = (false, u) := by
          simp [User.confirm, Serializer.loads, hsig, hexp, hid, hpg]
        refine ⟨?_, fun _ => ⟨by rw [hv, hcf], by rw [hcf]⟩, fun hcond => ?_⟩
        · rw [hv, hcf]
          simp only [hc]
          constructor
          · intro hfalse
            exact absurd hfalse (by simp)
          · intro hcond
            exact absurd hcond.2.1 hpg
        · exact absurd hcond.2.1 hpg
  · have hsig' : tok.validSig = false := by
      revert hsig
      cases tok.validSig <;> simp
    have hcf : User.confirm u tok 3600 now = (false, u) := by
      simp [User.confirm, Serializer.loads, hsig']
    refine ⟨?_, fun _ => ⟨by rw [hv, hcf], by rw [hcf]⟩, fun hcond => absurd hcond.1 hsig⟩
    rw [hv, hcf]
    simp only [hc]
    constructor
    · intro hfalse
      exact absurd hfalse (by simp)
    · intro hcond
      exact absurd hcond.1 hsig

def userCW : User := ⟨some 1, "c@x", "confy", "H", false, none⟩

def tokW : Token := Serializer.dumps [("confirm", some 1)] 0

theorem confirm_endpoint_transitions_iff_witness :
    (userCW.id = some 1 ∧ userCW.confirmed = false) ∧
    (((confirmView userCW tokW 100).confirmed = true ↔
      (tokW.validSig = true ∧ pyGet tokW.payload "confirm" = some 1
        ∧ 100 - tokW.issuedAt ≤ 3600)) ∧
    (¬ (tokW.validSig = true ∧ pyGet tokW.payload "confirm" = some 1
        ∧ 100 - tokW.issuedAt ≤ 3600) →
      confirmView userCW tokW 100 = userCW
        ∧ (User.confirm userCW tokW 3600 100).1 = false) ∧
    ((tokW.validSig = true ∧ pyGet tokW.payload "confirm" = some 1
        ∧ 100 - tokW.issuedAt ≤ 3600) →
      (User.confirm userCW tokW 3600 100).1 = true)) :=
  ⟨⟨rfl, rfl⟩, confirm_endpoint_transitions_iff userCW 1 tokW 100 rfl rfl⟩

/-! ### Helper lemmas on lists and the follow graph -/

/-- Number of stored edges for one ordered (follower, followed) id pair;
the composite primary key of the follows table keeps this at most 1. -/
def countEdges (aid bid : Option Nat) (follows : List Follow) : Nat :=
  (follows.filter (fun f => f.follower_id == aid && f.followed_id == bid)).length

theorem filter_eraseP_nil {α} (p : α → Bool) (l : List α)
    (h : (l.filter p).length ≤ 1) : (l.eraseP p).filter p = [] := by
  induction l with
  | nil => rfl
  | cons x xs ih =>
    by_cases hp : p x = true
    · rw [List.eraseP_cons_of_pos hp]
      rw [List.filter_cons_of_pos hp] at h
      simp only [List.length_cons] at h
      exact List.length_eq_zero.mp (by omega)
    · rw [List.eraseP_cons_of_neg hp, List.filter_cons_of_neg hp]
      rw [List.filter_cons_of_neg hp] at h
      exact ih h

theorem not_pred_mem_eraseP {α} (p : α → Bool) (l : List α)
    (h : (l.filter p).length ≤ 1) : ∀ a ∈ l.eraseP p, p a = false := by
  intro a ha
  have hnil := filter_eraseP_nil p l h
  have := List.filter_eq_nil_iff.mp hnil a ha
  simpa using this

theorem is_following_iff (a b : User) (fs : List Follow) (bid : Nat)
    (hb : b.id = some bid) :
    User.is_following a b fs = true ↔
      ∃ f ∈ fs, f.follower_id = a.id ∧ f.followed_id = some bid := by
  simp [User.is_following, hb, List.find?_isSome]

theorem exists_iff_filter_pos {α} (p : α → Bool) (l : List α) :
    (∃ a ∈ l, p a = true) ↔ 0 < (l.filter p).length := by
  rw [List.length_pos]
  constructor
  · rintro ⟨a, ha, hp⟩ hnil
    exact absurd hp (by simpa using List.filter_eq_nil_iff.mp hnil a ha)
  · intro hne
    rcases List.exists_mem_of_ne_nil _ hne with ⟨a, ha⟩
    exact ⟨a, (List.mem_filter.mp ha).1, (List.mem_filter.mp ha).2⟩

theorem is_following_iff_count (a b : User) (fs : List Follow) (bid : Nat)
    (hb : b.id = some bid) :
    User.is_following a b fs = true ↔ 0 < countEdges a.id b.id fs := by
  rw [is_following_iff a b fs bid hb]
  unfold countEdges
  rw [← exists_iff_filter_pos]
  constructor
  · rintro ⟨f, hf, h1, h2⟩
    exact ⟨f, hf, by simp [h1, h2, hb]⟩
  · rintro ⟨f, hf, hp⟩
    simp only [hb, Bool.and_eq_true, beq_iff_eq] at hp
    exact ⟨f, hf, hp.1, hp.2⟩

theorem countEdges_append (aid bid : Option Nat) (l1 l2 : List Follow) :
    countEdges aid bid (l1 ++ l2) = countEdges aid bid l1 + countEdges aid bid l2 := by
  unfold countEdges
  rw [List.filter_append, List.length_append]

theorem countEdges_new_edge (aid bid : Option Nat) (now : Nat) :
    countEdges aid bid [⟨aid, bid, now⟩] = 1 := by
  simp [countEdges]

/-- C8: `User.follow` is idempotent. When the ordered edge already exists
the call returns the table unchanged; when it does not, exactly the new
edge carrying the current timestamp is appended; and two successive calls
leave exactly one stored edge for the ordered pair, given the primary-key
invariant that the pair starts with at most one edge. -/
theorem follow_idempotent (a b : User) (follows : List Follow)
    (now now2 : Nat) (bid : Nat) (hb : b.id = some bid)
    (hpk : countEdges a.id b.id follows ≤ 1) :
    (User.is_following a b follows = true → User.follow a b follows now = follows) ∧
    (User.is_following a b follows = false →
      User.follow a b follows now = follows ++ [⟨a.id, b.id, now⟩]) ∧
    countEdges a.id b.id (User.follow a b (User.follow a b follows now) now2) = 1 := by
  refine ⟨fun h => by simp [User.follow, h], fun h => by simp [User.follow, h], ?_⟩
  by_cases h : User.is_following a b follows = true
  · have h1 : User.follow a b follows now = follows := by simp [User.follow, h]
    rw [h1]
    have h2 : User.follow a b follows now2 = follows := by simp [User.follow, h]
    rw [h2]
    have hpos := (is_following_iff_count a b follows bid hb).mp h
    omega
  · have h1 : User.follow a b follows now = follows ++ [⟨a.id, b.id, now⟩] := by
      simp [User.follow, h]
    have hc0 : countEdges a.id b.id follows = 0 := by
      by_contra hne
      exact h ((is_following_iff_count a b follows bid hb).mpr (by omega))
    have hcnew : countEdges a.id b.id (follows ++ [⟨a.id, b.id, now⟩]) = 1 := by
      rw [countEdges_append, hc0, countEdges_new_edge]
    have h2 : User.is_following a b (follows ++ [⟨a.id, b.id, now⟩]) = true :=
      (is_following_iff_count a b _ bid hb).mpr (by omega)
    rw [h1]
    have h3 : User.follow a b (follows ++ [⟨a.id, b.id, now⟩]) now2
        = follows ++ [⟨a.id, b.id, now⟩] := by simp [User.follow, h2]
    rw [h3, hcnew]

def aliceW : User := ⟨some 1, "a@x", "alice", "H", true, none⟩

def bobW : User := ⟨some 2, "b@x", "bob", "H", true, none⟩

theorem follow_idempotent_witness :
    (bobW.id = some 2 ∧ countEdges aliceW.id bobW.id [] ≤ 1) ∧
    countEdges aliceW.id bobW.id
      (User.follow aliceW bobW (User.follow aliceW bobW [] 3) 4) = 1 :=
  ⟨⟨rfl, by decide⟩, (follow_idempotent aliceW bobW [] 3 4 2 rfl (by decide)).2.2⟩

def selfEdgeW : Follow := ⟨some 1, some 1, 0⟩

def selfDBW : SocialDB := ⟨[aliceW], [selfEdgeW]⟩

/-- C9 counterexample: the claim says the public unfollow endpoint never
deletes an edge whose follower equals its followed. Concretely, user
alice (id 1) with a stored self-follow edge who requests
`/unfollow/alice` has that very edge deleted: the endpoint resolves the
username to alice herself and removes the (1, 1) row. -/
theorem unfollow_view_deletes_self_edge :
    selfEdgeW ∈ selfDBW.follows ∧
    selfEdgeW.follower_id = selfEdgeW.followed_id ∧
    (unfollowView aliceW "alice" selfDBW).follows = [] :=
  ⟨by decide, rfl, rfl⟩

/-- C9 (amended): the public unfollow endpoint removes the current user's
follow edge to whatever user the given username resolves to, with no
exemption for the self edge: whenever the lookup succeeds (including when
the user names themselves, making target = current user), the edge is
gone afterwards. -/
theorem unfollow_view_removes_edge (cu target : User) (db : SocialDB)
    (username : String) (tid : Nat)
    (hfind : db.users.find? (fun u => u.username == username) = some target)
    (htid : target.id = some tid)
    (hpk : countEdges cu.id target.id db.follows ≤ 1) :
    User.is_following cu target (unfollowView cu username db).follows = false := by
  unfold unfollowView
  rw [hfind]
  simp only
  have hall : ∀ f ∈ User.unfollow cu target db.follows,
      (f.follower_id == cu.id && f.followed_id == target.id) = false := by
    unfold User.unfollow
    exact not_pred_mem_eraseP _ db.follows hpk
  cases htest : User.is_following cu target (User.unfollow cu target db.follows) with
  | false => rfl
  | true =>
    obtain ⟨f, hf, h1, h2⟩ := (is_following_iff cu target _ tid htid).mp htest
    have hpf := hall f hf
    rw [h1, h2, htid] at hpf
    simp at hpf

theorem unfollow_view_removes_edge_witness :
    (selfDBW.users.find? (fun u => u.username == "alice") = some aliceW
      ∧ aliceW.id = some 1
      ∧ countEdges aliceW.id aliceW.id selfDBW.follows ≤ 1) ∧
    User.is_following aliceW aliceW (unfollowView aliceW "alice" selfDBW).follows
      = false :=
  ⟨⟨rfl, rfl, by decide⟩,
    unfollow_view_removes_edge aliceW aliceW selfDBW "alice" 1 rfl rfl (by decide)⟩

theorem le_foldr_max (l : List Nat) (x : Nat) (hx : x ∈ l) :
    x ≤ l.foldr max 0 := by
  induction l with
  | nil => cases hx
  | cons y ys ih =>
    rcases List.mem_cons.mp hx with h | h
    · subst h
      exact le_max_left x (ys.foldr max 0)
    · exact le_trans (ih h) (le_max_right y (ys.foldr max 0))

theorem nextId_fresh (users : List User) :
    ∀ u ∈ users, u.id ≠ some (nextId users) := by
  intro u hu heq
  have hmem : nextId users ∈ users.filterMap (fun v => v.id) :=
    List.mem_filterMap.mpr ⟨u, hu, by rw [heq]⟩
  have hle := le_foldr_max _ _ hmem
  unfold nextId at hle
  omega

theorem mem_follow_of_mem (a b : User) (fs : List Follow) (now : Nat)
    (f : Follow) (hf : f ∈ fs) : f ∈ User.follow a b fs now := by
  unfold User.follow
  split
  · exact hf
  · exact List.mem_append_left _ hf

theorem foldl_follow_mem (l : List User) (now : Nat) (fs : List Follow)
    (f : Follow) (hf : f ∈ fs) :
    f ∈ l.foldl (fun s u => User.follow u u s now) fs := by
  induction l generalizing fs with
  | nil => exact hf
  | cons x xs ih => exact ih (User.follow x x fs now) (mem_follow_of_mem x x fs now f hf)

theorem is_following_of_mem (a b : User) (fs : List Follow) (bid : Nat)
    (hb : b.id = some bid) (f : Follow) (hf : f ∈ fs)
    (h1 : f.follower_id = a.id) (h2 : f.followed_id = some bid) :
    User.is_following a b fs = true :=
  (is_following_iff a b fs bid hb).mpr ⟨f, hf, h1, h2⟩

theorem follow_establishes_self (u : User) (fs : List Follow) (now : Nat)
    (i : Nat) (hi : u.id = some i) :
    User.is_following u u (User.follow u u fs now) = true := by
  by_cases h : User.is_following u u fs = true
  · rwa [show User.follow u u fs now = fs from by simp [User.follow, h]]
  · have hfalse : User.follow u u fs now = fs ++ [⟨u.id, u.id, now⟩] := by
      simp [User.follow, h]
    rw [hfalse]
    exact is_following_of_mem u u _ i hi ⟨u.id, u.id, now⟩
      (List.mem_append_right _ (List.mem_singleton.mpr rfl)) rfl (by rw [hi])

/-- After `User.add_self_follows` every committed user row follows
itself. -/
theorem add_self_follows_establishes (db : SocialDB) (now : Nat) :
    ∀ u ∈ db.users, ∀ i, u.id = some i →
      User.is_following u u (User.add_self_follows db now).follows = true := by
  unfold User.add_self_follows
  simp only
  suffices h : ∀ (l : List User) (fs : List Follow), ∀ u ∈ l, ∀ i, u.id = some i →
      User.is_following u u (l.foldl (fun s v => User.follow v v s now) fs) = true by
    intro u hu i hi
    exact h db.users db.follows u hu i hi
  intro l
  induction l with
  | nil =>
    intro fs u hu
    cases hu
  | cons x xs ih =>
    intro fs u hu i hi
    rw [List.foldl_cons]
    rcases List.mem_cons.mp hu with hux | hu2
    · subst hux
      have hstep := follow_establishes_self u fs now i hi
      obtain ⟨f, hf, h1, h2⟩ := (is_following_iff u u _ i hi).mp hstep
      exact is_following_of_mem u u _ i hi f (foldl_follow_mem xs now _ f hf) h1 h2
    · exact ih (User.follow x x fs now) u hu2 i hi

/-- C4 counterexample: the claim says a self-follow edge exists immediately
after activation through the public flow. Concretely: register a user into
an empty database and confirm the account with its own freshly minted
token; the follows table is still empty and `is_following(user, user)` is
false. -/
def regResultW : SocialDB × User :=
  register (fun s => s) none ⟨[], []⟩ "n@x" "newbie" "pw"

def activatedW : User :=
  confirmView regResultW.2 (User.generate_confirmation_token regResultW.2 0) 10

theorem no_self_follow_after_activation :
    activatedW.confirmed = true ∧
    regResultW.1.follows = [] ∧
    User.is_following activatedW activatedW regResultW.1.follows = false :=
  ⟨rfl, rfl, rfl⟩

/-- C4 (amended): the public registration/confirmation flow writes no
follow edge at all, so a freshly activated user does not follow
themselves; the self-follow edge for every committed user exists only
after running the maintenance routine `User.add_self_follows`, which no
code in the application invokes. -/
theorem self_follow_needs_maintenance (hashFn : String → String)
    (defaultRole : Option RoleRec) (db : SocialDB)
    (email username password : String) (now : Nat)
    (hwf : ∀ f ∈ db.follows, ∃ u ∈ db.users, f.follower_id = u.id) :
    ((register hashFn defaultRole db email username password).1.follows
        = db.follows) ∧
    (User.is_following (register hashFn defaultRole db email username password).2
        (register hashFn defaultRole db email username password).2
        db.follows = false) ∧
    (∀ u ∈ db.users, ∀ i, u.id = some i →
      User.is_following u u (User.add_self_follows db now).follows = true) := by
  refine ⟨rfl, ?_, add_self_follows_establishes db now⟩
  set newU := (register hashFn defaultRole db email username password).2 with hnewU
  have hid : newU.id = some (nextId db.users) := rfl
  cases htest : User.is_following newU newU db.follows with
  | false => rfl
  | true =>
    obtain ⟨f, hf, h1, _⟩ := (is_following_iff newU newU db.follows _ hid).mp htest
    obtain ⟨u, hu, hui⟩ := hwf f hf
    rw [h1, hid] at hui
    exact absurd hui.symm (nextId_fresh db.users u hu)

theorem self_follow_needs_maintenance_witness :
    (∀ f ∈ (⟨[], []⟩ : SocialDB).follows, ∃ u ∈ (⟨[], []⟩ : SocialDB).users,
        f.follower_id = u.id) ∧
    User.is_following (register (fun s => s) none ⟨[], []⟩ "n@x" "newbie" "pw").2
      (register (fun s => s) none ⟨[], []⟩ "n@x" "newbie" "pw").2
      (⟨[], []⟩ : SocialDB).follows = false :=
  ⟨fun f hf => absurd hf (List.not_mem_nil f),
    (self_follow_needs_maintenance (fun s => s) none ⟨[], []⟩ "n@x" "newbie" "pw" 0
      (fun f hf => absurd hf (List.not_mem_nil f))).2.1⟩

def feedUserW : User := ⟨some 1, "f@x", "feedy", "H", true, none⟩

def ownPostW : Post := ⟨1, 1, 5⟩

/-- C6 counterexample: the claim says the feed always includes the user's
own posts (feed is a superset of the user's posts). For a user with a post
but no follow edges — the state produced by the public
registration/confirmation flow, which writes no self-follow — the feed is
empty and misses the user's own post. -/
theorem feed_misses_own_posts :
    feedUserW.id = some 1 ∧ ownPostW.author_id = 1 ∧
    indexFeed feedUserW [ownPostW] [] = [] :=
  ⟨rfl, rfl, rfl⟩

theorem followed_posts_mem (u : User) (posts : List Post)
    (follows : List Follow) (p : Post) :
    p ∈ User.followed_posts u posts follows ↔
      (p ∈ posts ∧ ∃ f ∈ follows, f.followed_id = some p.author_id
        ∧ f.follower_id = u.id) := by
  unfold User.followed_posts
  rw [List.mem_flatMap]
  constructor
  · rintro ⟨q, hq, hpq⟩
    rw [List.mem_map] at hpq
    obtain ⟨f, hf, rfl⟩ := hpq
    rw [List.mem_filter] at hf
    obtain ⟨hfmem, hfpred⟩ := hf
    simp only [Bool.and_eq_true, beq_iff_eq] at hfpred
    exact ⟨hq, f, hfmem, hfpred.1, hfpred.2⟩
  · rintro ⟨hp, f, hf, h1, h2⟩
    refine ⟨p, hp, List.mem_map.mpr ⟨f, List.mem_filter.mpr ⟨hf, ?_⟩, rfl⟩⟩
    simp [h1, h2]

/-- C6 (amended): the index-view feed contains exactly the posts whose
author the user has a follow edge to, ordered by post timestamp
descending; the user's own posts belong to it exactly under a self-follow
edge, which the application flow never creates, so the feed need not
contain the user's own posts. -/
theorem feed_exactly_followed (u : User) (posts : List Post)
    (follows : List Follow) :
    (∀ p, p ∈ indexFeed u posts follows ↔
      (p ∈ posts ∧ ∃ f ∈ follows, f.followed_id = some p.author_id
        ∧ f.follower_id = u.id)) ∧
    (indexFeed u posts follows).Sorted postDesc ∧
    (∀ i, u.id = some i →
      (∃ f ∈ follows, f.follower_id = some i ∧ f.followed_id = some i) →
      ∀ p ∈ posts, p.author_id = i → p ∈ indexFeed u posts follows) := by
  have hmem : ∀ p : Post, p ∈ indexFeed u posts follows ↔
      p ∈ User.followed_posts u posts follows :=
    fun p => (List.perm_insertionSort postDesc _).mem_iff
  refine ⟨fun p => (hmem p).trans (followed_posts_mem u posts follows p),
    List.sorted_insertionSort postDesc _, ?_⟩
  intro i hu hedge p hp hap
  obtain ⟨f, hf, h1, h2⟩ := hedge
  rw [hmem p, followed_posts_mem]
  exact ⟨hp, f, hf, by rw [h2, hap], by rw [h1, hu]⟩

theorem feed_exactly_followed_witness :
    ownPostW ∈ indexFeed feedUserW [ownPostW] [selfEdgeW] :=
  (feed_exactly_followed feedUserW [ownPostW] [selfEdgeW]).2.2 1 rfl
    ⟨selfEdgeW, by decide, rfl, rfl⟩ ownPostW (by decide) rfl

theorem mem_updateFirst {α} (p : α → Bool) (g : α → α) (l : List α) (a : α)
    (ha : a ∈ updateFirst p g l) : a ∈ l ∨ ∃ x ∈ l, p x = true ∧ a = g x := by
  induction l with
  | nil => cases ha
  | cons x xs ih =>
    unfold updateFirst at ha
    by_cases hp : p x = true
    · rw [if_pos hp] at ha
      rcases List.mem_cons.mp ha with h | h
      · exact Or.inr ⟨x, List.mem_cons_self x xs, hp, h⟩
      · exact Or.inl (List.mem_cons_of_mem x h)
    · rw [if_neg hp] at ha
      rcases List.mem_cons.mp ha with h | h
      · exact Or.inl (h ▸ List.mem_cons_self x xs)
      · rcases ih h with h2 | ⟨y, hy, hpy, hay⟩
        · exact Or.inl (List.mem_cons_of_mem x h2)
        · exact Or.inr ⟨y, List.mem_cons_of_mem x hy, hpy, hay⟩

theorem updateFirst_map_id (l : List Comment) (i : Nat) (v : Option Bool) :
    (updateFirst (fun c => c.id == i) (fun c => { c with disabled := v }) l).map
        (fun c => c.id)
      = l.map (fun c => c.id) := by
  induction l with
  | nil => rfl
  | cons x xs ih =>
    unfold updateFirst
    by_cases hp : (x.id == i) = true
    · rw [if_pos hp]
      rfl
    · rw [if_neg hp]
      simp only [List.map_cons, ih]

theorem updateFirst_id_sets (l : List Comment) (i : Nat) (v : Option Bool)
    (hn : (l.map (fun c => c.id)).Nodup) :
    ∀ c2 ∈ updateFirst (fun c => c.id == i) (fun c => { c with disabled := v }) l,
      c2.id = i → c2.disabled = v := by
  induction l with
  | nil =>
    intro c2 h
    cases h
  | cons x xs ih =>
    rw [List.map_cons, List.nodup_cons] at hn
    intro c2 hc2 hid
    unfold updateFirst at hc2
    by_cases hp : (x.id == i) = true
    · rw [if_pos hp] at hc2
      rcases List.mem_cons.mp hc2 with h | h
      · rw [h]
      · exfalso
        apply hn.1
        have hxi : x.id = i := by simpa using hp
        rw [hxi]
        exact List.mem_map.mpr ⟨c2, h, hid⟩
    · rw [if_neg hp] at hc2
      rcases List.mem_cons.mp hc2 with h | h
      · exact absurd (by rw [h] at hid; simpa using hid) hp
      · exact ih hn.2 c2 h hid

theorem filter_key_le_one {α} (f : α → Nat) (i : Nat) (l : List α)
    (h : (l.map f).Nodup) : (l.filter (fun x => f x == i)).length ≤ 1 := by
  induction l with
  | nil => simp
  | cons x xs ih =>
    rw [List.map_cons, List.nodup_cons] at h
    by_cases hp : (f x == i) = true
    · rw [List.filter_cons, if_pos hp]
      have hfx : f x = i := by simpa using hp
      have hnil : xs.filter (fun y => f y == i) = [] := by
        rw [List.filter_eq_nil_iff]
        intro a ha hai
        apply h.1
        rw [hfx]
        exact List.mem_map.mpr ⟨a, ha, by simpa using hai⟩
      rw [hnil]
      simp
    · rw [List.filter_cons, if_neg hp]
      exact ih h.2

theorem moderate_enable_absent (i j : Nat) (cs : List Comment)
    (h : ∀ c2 ∈ cs, c2.id ≠ i) : ∀ c2 ∈ moderate_enable j cs, c2.id ≠ i := by
  intro c2 hc2
  unfold moderate_enable at hc2
  split at hc2
  · rcases mem_updateFirst _ _ _ _ hc2 with h2 | ⟨x, hx, _, hgx⟩
    · exact h c2 h2
    · rw [hgx]
      exact h x hx
  · exact h c2 hc2

theorem moderate_disable_absent (i j : Nat) (cs : List Comment)
    (h : ∀ c2 ∈ cs, c2.id ≠ i) : ∀ c2 ∈ moderate_disable j cs, c2.id ≠ i := by
  intro c2 hc2
  unfold moderate_disable at hc2
  split at hc2
  · rcases mem_updateFirst _ _ _ _ hc2 with h2 | ⟨x, hx, _, hgx⟩
    · exact h c2 h2
    · rw [hgx]
      exact h x hx
  · exact h c2 hc2

theorem delete_comment_absent (i j : Nat) (cs : List Comment)
    (h : ∀ c2 ∈ cs, c2.id ≠ i) : ∀ c2 ∈ delete_comment j cs, c2.id ≠ i := by
  intro c2 hc2
  unfold delete_comment at hc2
  split at hc2
  · rcases mem_updateFirst _ _ _ _ (List.mem_of_mem_eraseP hc2) with h2 | ⟨x, hx, _, hgx⟩
    · exact h c2 h2
    · rw [hgx]
      exact h x hx
  · exact h c2 hc2

theorem applyAction_preserves_absent (i : Nat) (cs : List Comment)
    (act : ModAction) (h : ∀ c2 ∈ cs, c2.id ≠ i) :
    ∀ c2 ∈ applyAction cs act, c2.id ≠ i := by
  cases act with
  | enable j => exact moderate_enable_absent i j cs h
  | disable j => exact moderate_disable_absent i j cs h
  | delete j => exact delete_comment_absent i j cs h

theorem applyActions_preserves_absent (i : Nat) (cs : List Comment)
    (acts : List ModAction) (h : ∀ c2 ∈ cs, c2.id ≠ i) :
    ∀ c2 ∈ applyActions cs acts, c2.id ≠ i := by
  induction acts generalizing cs with
  | nil => exact h
  | cons a as ih => exact ih (applyAction cs a) (applyAction_preserves_absent i cs a h)

/-- C10: after the disable moderation action a comment is excluded from the
public listing of its post while still appearing in the moderation
listing; after the delete action it appears in neither listing, and no
later sequence of moderation actions can bring it back (the deletion is
permanent). Assumes the primary-key invariant that comment ids are unique;
the public listing is the spec-modelled `publicComments`. -/
theorem moderation_visibility (cs : List Comment) (c : Comment)
    (hmem : c ∈ cs) (hn : (cs.map (fun x => x.id)).Nodup) :
    (∀ c2 ∈ publicComments c.post_id (moderate_disable c.id cs), c2.id ≠ c.id) ∧
    (∃ c2 ∈ moderationComments (moderate_disable c.id cs), c2.id = c.id) ∧
    (∀ c2 ∈ publicComments c.post_id (delete_comment c.id cs), c2.id ≠ c.id) ∧
    (∀ c2 ∈ moderationComments (delete_comment c.id cs), c2.id ≠ c.id) ∧
    (∀ acts : List ModAction,
      ∀ c2 ∈ applyActions (delete_comment c.id cs) acts, c2.id ≠ c.id) := by
  have hguard : (cs.find? (fun x => x.id == c.id)).isSome = true :=
    List.find?_isSome.mpr ⟨c, hmem, by simp⟩
  have hdis : moderate_disable c.id cs
      = updateFirst (fun x => x.id == c.id)
          (fun x => { x with disabled := some true }) cs := by
    unfold moderate_disable
    rw [if_pos hguard]
  have hdel : delete_comment c.id cs
      = (updateFirst (fun x => x.id == c.id)
          (fun x => { x with disabled := some true }) cs).eraseP
          (fun x => x.id == c.id) := by
    unfold delete_comment
    rw [if_pos hguard]
  have habsent : ∀ c2 ∈ delete_comment c.id cs, c2.id ≠ c.id := by
    intro c2 hc2 heq
    rw [hdel] at hc2
    have hnup : ((updateFirst (fun x => x.id == c.id)
        (fun x => { x with disabled := some true }) cs).map
          (fun x => x.id)).Nodup := by
      rw [updateFirst_map_id]
      exact hn
    have hle := filter_key_le_one (fun x : Comment => x.id) c.id _ hnup
    have hpred := not_pred_mem_eraseP _ _ hle c2 hc2
    simp [heq] at hpred
  refine ⟨?_, ?_, ?_, habsent, fun acts =>
    applyActions_preserves_absent c.id _ acts habsent⟩
  · intro c2 hc2 heq
    unfold publicComments at hc2
    rw [List.mem_filter] at hc2
    have hset := updateFirst_id_sets cs c.id (some true) hn c2 (hdis ▸ hc2.1) heq
    have h2 := hc2.2
    rw [hset] at h2
    simp at h2
  · have hidmem : c.id ∈ (moderate_disable c.id cs).map (fun x => x.id) := by
      rw [hdis, updateFirst_map_id]
      exact List.mem_map.mpr ⟨c, hmem, rfl⟩
    obtain ⟨c2, hc2, hc2id⟩ := List.mem_map.mp hidmem
    exact ⟨c2, hc2, hc2id⟩
  · intro c2 hc2 heq
    unfold publicComments at hc2
    rw [List.mem_filter] at hc2
    exact habsent c2 hc2.1 heq

def commentW : Comment := ⟨1, 1, none⟩

theorem moderation_visibility_witness :
    (commentW ∈ [commentW] ∧ ([commentW].map (fun x => x.id)).Nodup) ∧
    (∃ c2 ∈ moderationComments (moderate_disable commentW.id [commentW]),
      c2.id = commentW.id) :=
  ⟨⟨by decide, by decide⟩,
    (moderation_visibility [commentW] commentW (by decide) (by decide)).2.1⟩

end Blogify
